import Mathlib

/-!
Shallow embedding of the reimplementable core of
`examples/protein_binding_unfolding_4state_model.ipynb`:

* the thermodynamically parameterized rate laws `_gibbs` and `_eyring`
  (notebook cell 5), polymorphic over a numeric/symbolic backend exactly as
  in the source (the source uses plain `+ - * /` on its inputs plus
  `backend.log` / `backend.exp`);
* a numeric-evaluation variant of `_gibbs` with Python error semantics
  (`math.log` raises a domain error on non-positive input, float division
  by zero raises a zero-division error);
* `Se0_from_Tm` (notebook cell 28);
* the reaction network of the notebook (cells 3, 10, 12), its composition
  matrix and its composition balance vectors;
* the mass-action right-hand side of the full 5-species ODE system and the
  two reduced systems obtained by eliminating {L, N} resp. {L, A}.
-/

namespace FourState

/-- A numeric/symbolic backend as used by the notebook's rate callbacks:
the callbacks use the ambient `+ - * /` and unary `-` of their argument
type and take `exp` and `log` from a `backend` object. -/
structure Backend (α : Type*) where
  exp : α → α
  log : α → α

/-- The Gibbs equilibrium-constant callback from the notebook:
`H2 = H + Cp*(T - Tref)`, `S2 = S + Cp*log(T/Tref)`,
result `exp(-(H2 - T*S2)/(R*T))`.  It is a pure function (no side
effects) and is written once, polymorphically over the backend. -/
def _gibbs {α : Type*} [Add α] [Sub α] [Mul α] [Div α] [Neg α]
    (args : α × α × α × α) (T R : α) (backend : Backend α) : α :=
  let H := args.1
  let S := args.2.1
  let Cp := args.2.2.1
  let Tref := args.2.2.2
  let H2 := H + Cp * (T - Tref)
  let S2 := S + Cp * backend.log (T / Tref)
  backend.exp (-(H2 - T * S2) / (R * T))

/-- The Eyring rate-constant callback from the notebook:
`k_B/h*T*exp(-(H - T*S)/(R*T))`.  Pure, polymorphic over the backend. -/
def _eyring {α : Type*} [Add α] [Sub α] [Mul α] [Div α] [Neg α]
    (args : α × α) (T R k_B h : α) (backend : Backend α) : α :=
  let H := args.1
  let S := args.2
  k_B / h * T * backend.exp (-(H - T * S) / (R * T))

/-- The numeric backend: real `exp` and `log`. -/
noncomputable def realBackend : Backend ℝ := ⟨Real.exp, Real.log⟩

/-- Symbolic expressions over the operations the rate callbacks use
(`+ - * /`, unary `-`, `exp`, `log`), with numbered free variables.  This
models the sympy expression trees the notebook produces when it calls the
rate callbacks with symbolic inputs. -/
inductive Expr : Type where
  | var : ℕ → Expr
  | add : Expr → Expr → Expr
  | sub : Expr → Expr → Expr
  | mul : Expr → Expr → Expr
  | div : Expr → Expr → Expr
  | neg : Expr → Expr
  | exp : Expr → Expr
  | log : Expr → Expr

instance : Add Expr := ⟨Expr.add⟩

instance : Sub Expr := ⟨Expr.sub⟩

instance : Mul Expr := ⟨Expr.mul⟩

instance : Div Expr := ⟨Expr.div⟩

instance : Neg Expr := ⟨Expr.neg⟩

/-- The symbolic backend: expression-tree `exp` and `log`. -/
def symBackend : Backend Expr := ⟨Expr.exp, Expr.log⟩

/-- Substituting numeric values for the free variables of a symbolic
expression and evaluating it over the reals. -/
noncomputable def Expr.evalWith (σ : ℕ → ℝ) : Expr → ℝ
  | Expr.var n => σ n
  | Expr.add a b => a.evalWith σ + b.evalWith σ
  | Expr.sub a b => a.evalWith σ - b.evalWith σ
  | Expr.mul a b => a.evalWith σ * b.evalWith σ
  | Expr.div a b => a.evalWith σ / b.evalWith σ
  | Expr.neg a => -(a.evalWith σ)
  | Expr.exp a => Real.exp (a.evalWith σ)
  | Expr.log a => Real.log (a.evalWith σ)

/-- Errors that Python numeric evaluation of the callbacks can raise:
`math.log` raises a domain error (`ValueError: math domain error`) on a
non-positive argument, and float division by zero raises
`ZeroDivisionError`. -/
inductive NumError : Type where
  | domainError : NumError
  | zeroDivisionError : NumError
deriving DecidableEq

/-- Python float division: raises `ZeroDivisionError` on a zero
denominator, otherwise returns the real quotient. -/
noncomputable def pydiv (a b : ℝ) : Except NumError ℝ :=
  if b = 0 then Except.error NumError.zeroDivisionError else Except.ok (a / b)

/-- Modelled from the spec: the numeric backend's `log` (Python's
`math.log`, not part of the repository) "fails with DomainError ...
since the logarithm is undefined" on a non-positive argument. -/
noncomputable def pylog (x : ℝ) : Except NumError ℝ :=
  if x ≤ 0 then Except.error NumError.domainError else Except.ok (Real.log x)

/-- Numeric evaluation of `_gibbs` with Python error semantics, following
the source's evaluation order: `T/Tref` is formed first, then its log,
then the final quotient `-(H2 - T*S2)/(R*T)` whose exponential is
returned.  (`exp` overflow is not modelled: the spec treats overflow in
`exp` as an inherent property of the physical formula.) -/
noncomputable def gibbsNum (H S Cp Tref T R : ℝ) : Except NumError ℝ :=
  (pydiv T Tref).bind fun q =>
    (pylog q).bind fun l =>
      let H2 := H + Cp * (T - Tref)
      let S2 := S + Cp * l
      (pydiv (-(H2 - T * S2)) (R * T)).map Real.exp

/-- The function `Se0_from_Tm` from notebook cell 28 (with the parameters `dH0`, `T0`,
`dCp` it reads from the parameter table passed explicitly):
`dH0/Tm + (Tm-T0)*dCp/Tm - dCp*log(Tm/T0)`. -/
noncomputable def Se0_from_Tm (Tm dH0 T0 dCp : ℝ) : ℝ :=
  dH0 / Tm + (Tm - T0) * dCp / Tm - dCp * Real.log (Tm / T0)

/-- A reaction network over `nc` conserved components, `ns` species and
`nr` reactions, in exact rational arithmetic (the spec prefers exact
arithmetic for the invariant computation).  `comp` is the composition
matrix `A` (components × species, built directly from each
`Substance.composition`); `reacCoeff`/`prodCoeff` are the reactant and
product stoichiometric coefficients of each reaction. -/
structure RNet (nc ns nr : ℕ) where
  comp : Matrix (Fin nc) (Fin ns) ℚ
  reacCoeff : Matrix (Fin nr) (Fin ns) ℚ
  prodCoeff : Matrix (Fin nr) (Fin ns) ℚ

/-- The net stoichiometric change vector of reaction `r`
(product minus reactant coefficients, per species). -/
def RNet.netChange {nc ns nr : ℕ} (net : RNet nc ns nr) (r : Fin nr) :
    Fin ns → ℚ :=
  fun s => net.prodCoeff r s - net.reacCoeff r s

/-- Mass conservation of every reaction with respect to every component.
chempy enforces this at `Reaction`/`ReactionSystem` construction time
(notebook cell 2: specifying compositions "will allow ChemPy to raise an
error if any of our reactions ... would violate mass-conservation"), so
every constructed network satisfies it. -/
def RNet.balanced {nc ns nr : ℕ} (net : RNet nc ns nr) : Prop :=
  ∀ r c, Matrix.dotProduct (net.comp c) (net.netChange r) = 0

/-- Modelled from the spec: `ReactionSystem.composition_balance_vectors`
(chempy library code, not under `src/`) is the composition-balance query
`(network) -> (matrix, component-name list)`; per the spec's data model a
`LinearInvariant` gives "for each species, the coefficient in a conserved
linear combination of concentrations", one per conserved component, so
the returned vectors are the rows of the composition matrix — which is
also exactly how the notebook uses the result (cells 14 and 49). -/
def composition_balance_vectors {nc ns nr : ℕ} (net : RNet nc ns nr) :
    Fin nc → Fin ns → ℚ :=
  fun c => net.comp c

/-- Composition matrix of the notebook's network (cell 3): components
(rows) in order `protein`, `ligand`; species (columns) in order
`N, U, A, L, NL` with compositions `{protein:1}`, `{protein:1}`,
`{protein:1}`, `{ligand:1}`, `{protein:1, ligand:1}`. -/
def compMat4 : Matrix (Fin 2) (Fin 5) ℚ :=
  !![1, 1, 1, 0, 1;
     0, 0, 0, 1, 1]

/-- Reactant coefficients of the five reactions (cells 10 and 12), rows
in order: ligand-protein dissociation `NL → N + L`, ligand-protein
association `N + L → NL`, protein unfolding `N → U`, protein folding
`U → N`, protein aggregation `U → A`. -/
def reacCoeff4 : Matrix (Fin 5) (Fin 5) ℚ :=
  !![0, 0, 0, 0, 1;
     1, 0, 0, 1, 0;
     1, 0, 0, 0, 0;
     0, 1, 0, 0, 0;
     0, 1, 0, 0, 0]

/-- Product coefficients of the five reactions, same row order. -/
def prodCoeff4 : Matrix (Fin 5) (Fin 5) ℚ :=
  !![1, 0, 0, 1, 0;
     0, 0, 0, 0, 1;
     0, 1, 0, 0, 0;
     1, 0, 0, 0, 0;
     0, 0, 1, 0, 0]

/-- The notebook's 4-state reaction network. -/
def rnet4 : RNet 2 5 5 := ⟨compMat4, reacCoeff4, prodCoeff4⟩

/-- The species names of the network, in insertion order. -/
def speciesNames : Finset String := {"N", "U", "A", "L", "NL"}

/-- Modelled from the spec: the free (retained) species of a reduced
system are the network's species minus the caller-chosen eliminated
set (pyodesys `PartiallySolvedSystem.free_names`, not under `src/`). -/
def freeSpecies (elim : Finset String) : Finset String :=
  speciesNames \ elim

/-- The invariant coefficients restricted to the eliminated-species
columns for the elimination set `{L, N}` (columns `L`, `N` of the
composition matrix): the sub-matrix that must be invertible for the
elimination to be feasible. -/
def elimSubLN : Matrix (Fin 2) (Fin 2) ℚ :=
  Matrix.of ![![compMat4 0 3, compMat4 0 0], ![compMat4 1 3, compMat4 1 0]]

/-- The invariant coefficients restricted to the eliminated-species
columns for the elimination set `{L, A}` (columns `L`, `A`). -/
def elimSubLA : Matrix (Fin 2) (Fin 2) ℚ :=
  Matrix.of ![![compMat4 0 3, compMat4 0 2], ![compMat4 1 3, compMat4 1 2]]

/-- Modelled from the spec: the rate-assembly glue (chempy's
`ReactionSystem.rates` / `get_odesys`, not under `src/`) assembles each
species' time derivative as the stoichiometry-weighted sum of the
mass-action reaction rates, exactly as the notebook displays in cell 25.
Species order `N, U, A, L, NL` (indices 0–4); `k` holds the five
mass-action rate coefficients in reaction order: dissociation `NL → N+L`,
association `N+L → NL`, unfolding `N → U`, folding `U → N`, aggregation
`U → A`. -/
noncomputable def fullRhs (k : Fin 5 → ℝ) (y : Fin 5 → ℝ) : Fin 5 → ℝ :=
  let r1 := k 0 * y 4
  let r2 := k 1 * y 0 * y 3
  let r3 := k 2 * y 0
  let r4 := k 3 * y 1
  let r5 := k 4 * y 1
  ![r1 - r2 - r3 + r4, r3 - r4 - r5, r5, r1 - r2, r2 - r1]

/-- Modelled from the spec: the invariant-recovery map for the
elimination set `{L, N}` — the full state reconstructed from the free
state `x = (U, A, NL)` and the invariant totals `P0` (protein) and `L0`
(ligand): `N = P0 - U - A - NL`, `L = L0 - NL`. -/
noncomputable def recLN (P0 L0 : ℝ) (x : Fin 3 → ℝ) : Fin 5 → ℝ :=
  ![P0 - x 0 - x 1 - x 2, x 0, x 1, L0 - x 2, x 2]

/-- Projection of a full state onto the free variables `(U, A, NL)` of
the `{L, N}` elimination. -/
noncomputable def projLN (z : Fin 5 → ℝ) : Fin 3 → ℝ := ![z 1, z 2, z 4]

/-- Modelled from the spec: the reduced right-hand side of the `{L, N}`
elimination (pyodesys `PartiallySolvedSystem`, not under `src/`):
substitute the eliminated species' closed forms into the mass-balance
equations and keep the free components. -/
noncomputable def rhsLN (k : Fin 5 → ℝ) (P0 L0 : ℝ) (x : Fin 3 → ℝ) :
    Fin 3 → ℝ :=
  projLN (fullRhs k (recLN P0 L0 x))

/-- The invariant-recovery map for the elimination set `{L, A}`: free
state `x = (N, U, NL)`, reconstruction `A = P0 - N - U - NL`,
`L = L0 - NL`. -/
noncomputable def recLA (P0 L0 : ℝ) (x : Fin 3 → ℝ) : Fin 5 → ℝ :=
  ![x 0, x 1, P0 - x 0 - x 1 - x 2, L0 - x 2, x 2]

/-- Projection of a full state onto the free variables `(N, U, NL)` of
the `{L, A}` elimination. -/
noncomputable def projLA (z : Fin 5 → ℝ) : Fin 3 → ℝ := ![z 0, z 1, z 4]

/-- The reduced right-hand side of the `{L, A}` elimination. -/
noncomputable def rhsLA (k : Fin 5 → ℝ) (P0 L0 : ℝ) (x : Fin 3 → ℝ) :
    Fin 3 → ℝ :=
  projLA (fullRhs k (recLA P0 L0 x))

/-- The Jacobian matrix of `rhsLN` with respect to the free variables
`(U, A, NL)` (entry `(i, j)` is the partial derivative of component `i`
in variable `j`; proved to be the derivative in
`reduced4_structure_and_jacobians`). -/
noncomputable def jacLN (k : Fin 5 → ℝ) (P0 L0 : ℝ) (x : Fin 3 → ℝ) :
    Matrix (Fin 3) (Fin 3) ℝ :=
  let N := P0 - x 0 - x 1 - x 2
  let L := L0 - x 2
  Matrix.of ![![-(k 2) - k 3 - k 4, -(k 2), -(k 2)],
              ![k 4, 0, 0],
              ![-(k 1) * L, -(k 1) * L, -(k 1) * (L + N) - k 0]]

/-- The Jacobian matrix of `rhsLA` with respect to the free variables
`(N, U, NL)`. -/
noncomputable def jacLA (k : Fin 5 → ℝ) (P0 L0 : ℝ) (x : Fin 3 → ℝ) :
    Matrix (Fin 3) (Fin 3) ℝ :=
  let L := L0 - x 2
  Matrix.of ![![-(k 1) * L - k 2, k 3, k 0 + k 1 * x 0],
              ![k 2, -(k 3) - k 4, 0],
              ![k 1 * L, 0, -(k 1) * x 0 - k 0]]

/-- Statement that `J` is the Jacobian of the three-variable map `f` at `(u, a, nl)`:
each entry `J i j` is the derivative of component `i` of `f` in the
`j`-th variable, the others held fixed. -/
def isJacobianAt (f : (Fin 3 → ℝ) → Fin 3 → ℝ)
    (J : (Fin 3 → ℝ) → Matrix (Fin 3) (Fin 3) ℝ) (u a nl : ℝ) : Prop :=
  (HasDerivAt (fun s => f ![s, a, nl] 0) (J ![u, a, nl] 0 0) u ∧
   HasDerivAt (fun s => f ![u, s, nl] 0) (J ![u, a, nl] 0 1) a ∧
   HasDerivAt (fun s => f ![u, a, s] 0) (J ![u, a, nl] 0 2) nl) ∧
  (HasDerivAt (fun s => f ![s, a, nl] 1) (J ![u, a, nl] 1 0) u ∧
   HasDerivAt (fun s => f ![u, s, nl] 1) (J ![u, a, nl] 1 1) a ∧
   HasDerivAt (fun s => f ![u, a, s] 1) (J ![u, a, nl] 1 2) nl) ∧
  (HasDerivAt (fun s => f ![s, a, nl] 2) (J ![u, a, nl] 2 0) u ∧
   HasDerivAt (fun s => f ![u, s, nl] 2) (J ![u, a, nl] 2 1) a ∧
   HasDerivAt (fun s => f ![u, a, s] 2) (J ![u, a, nl] 2 2) nl)

/-- Modelled from the spec: the closed-form expressions produced by
`extra['linear_dependencies'](['L', 'N'])` (pyodesys, not under `src/`)
for the eliminated species, as affine functions of the initial
concentrations `c0` and the free-species values `x = (U, A, NL)`:
`L = (L(0) + NL(0)) - NL` and `N = (N(0) + U(0) + A(0) + NL(0)) - U - A
- NL`, from the ligand and protein invariants.  The derivation is a pure
function of its inputs (spec §5). -/
noncomputable def analytic_L_N (c0 : Fin 5 → ℝ) (x : Fin 3 → ℝ) :
    List (String × ℝ) :=
  [("L", (c0 3 + c0 4) - x 2),
   ("N", (c0 0 + c0 1 + c0 2 + c0 4) - x 0 - x 1 - x 2)]

end FourState

open FourState

/-- Binding on a successful `Except` computation applies the continuation. -/
theorem exbind_ok {ε α β : Type} (a : α) (f : α → Except ε β) :
    (Except.ok a : Except ε α).bind f = f a := rfl

/-- Binding on a failed `Except` computation propagates the error. -/
theorem exbind_error {ε α β : Type} (e : ε) (f : α → Except ε β) :
    (Except.error e : Except ε α).bind f = Except.error e := rfl

/-- C1: for every input `H S Cp Tref T R` over any backend (numeric or
symbolic), `_gibbs` returns exactly
`exp(-((H + Cp*(T-Tref)) - T*(S + Cp*log(T/Tref)))/(R*T))`, i.e. the
spec's formula with `H2` and `S2` unfolded; it is a pure function of its
arguments (stated here as a definitional equation of a Lean function,
which has no side effects). -/
theorem gibbs_formula_exact {α : Type*} [Add α] [Sub α] [Mul α] [Div α] [Neg α]
    (B : Backend α) (H S Cp Tref T R : α) :
    _gibbs (H, S, Cp, Tref) T R B =
      B.exp (-((H + Cp * (T - Tref)) - T * (S + Cp * B.log (T / Tref))) / (R * T)) := rfl

/-- C2: for every input `H S T R k_B h` over any backend (numeric or
symbolic), `_eyring` returns exactly `k_B/h * T * exp(-(H - T*S)/(R*T))`. -/
theorem eyring_formula_exact {α : Type*} [Add α] [Sub α] [Mul α] [Div α] [Neg α]
    (B : Backend α) (H S T R k_B h : α) :
    _eyring (H, S) T R k_B h B = k_B / h * T * B.exp (-(H - T * S) / (R * T)) := rfl

/-- C3: evaluating `_gibbs` (resp. `_eyring`) on symbolic inputs and then
substituting numeric values for the variables gives the same result as
evaluating the same formula directly on the substituted numeric values.
Both evaluation modes go through the one polymorphic definition
(`_gibbs` / `_eyring`), instantiated at `Expr` with `symBackend` on the
left and at `ℝ` with `realBackend` on the right: there is no
special-casing on the input type. -/
theorem symbolic_numeric_agree (σ : ℕ → ℝ)
    (eH eS eCp eTref eT eR ekB eh : Expr) :
    (_gibbs (eH, eS, eCp, eTref) eT eR symBackend).evalWith σ =
      _gibbs (eH.evalWith σ, eS.evalWith σ, eCp.evalWith σ, eTref.evalWith σ)
        (eT.evalWith σ) (eR.evalWith σ) realBackend ∧
    (_eyring (eH, eS) eT eR ekB eh symBackend).evalWith σ =
      _eyring (eH.evalWith σ, eS.evalWith σ) (eT.evalWith σ) (eR.evalWith σ)
        (ekB.evalWith σ) (eh.evalWith σ) realBackend := by
  constructor <;> rfl

/-- C4 counterexample: at `T = -1` and `Tref = -1` (both `≤ 0`, an
instance of the claim's "any T ≤ 0 or Tref ≤ 0"), numeric `_gibbs`
does NOT fail with a domain error: `T/Tref = 1 > 0`, so the logarithm is
defined and the call returns the ordinary value `exp 0 = 1`
(here with `H = S = Cp = 0`, `R = 1`). -/
theorem gibbsNum_no_error_both_negative :
    gibbsNum 0 0 0 (-1) (-1) 1 = Except.ok 1 := by
  have h1 : pydiv (-1 : ℝ) (-1) = Except.ok 1 := by
    rw [pydiv, if_neg (by norm_num)]; norm_num
  have h2 : pylog (1 : ℝ) = Except.ok 0 := by
    rw [pylog, if_neg (by norm_num), Real.log_one]
  rw [gibbsNum, h1, exbind_ok, h2, exbind_ok]
  norm_num [pydiv, Except.map, Real.exp_zero]

/-- C4 (amended): with `T ≤ 0 < Tref` — in particular `T = -1` with a
positive reference temperature, the scenario of the spec — numeric
`_gibbs` fails with a domain error (from the logarithm of the
non-positive quotient `T/Tref`) rather than returning a value. -/
theorem gibbsNum_domainError_of_nonpos (H S Cp Tref T R : ℝ)
    (hT : T ≤ 0) (hTref : 0 < Tref) :
    gibbsNum H S Cp Tref T R = Except.error NumError.domainError := by
  have h1 : pydiv T Tref = Except.ok (T / Tref) := by
    rw [pydiv, if_neg (ne_of_gt hTref)]
  have h2 : pylog (T / Tref) = Except.error NumError.domainError := by
    rw [pylog, if_pos (div_nonpos_iff.mpr (Or.inr ⟨hT, hTref.le⟩))]
  rw [gibbsNum, h1, exbind_ok, h2, exbind_error]

/-- C4 witness: the amended theorem applied at
`H = 1, S = 2, Cp = 3, Tref = 298, T = -1, R = 8`. -/
theorem gibbsNum_domainError_witness :
    (-1 : ℝ) ≤ 0 ∧ (0 : ℝ) < 298 ∧
      gibbsNum 1 2 3 298 (-1) 8 = Except.error NumError.domainError :=
  ⟨by norm_num, by norm_num,
    gibbsNum_domainError_of_nonpos 1 2 3 298 (-1) 8 (by norm_num) (by norm_num)⟩

/-- C10: substituting `S = Se0_from_Tm Tm H Tref Cp` into the Gibbs
formula evaluated at `T = Tm` gives an equilibrium constant of exactly 1
for every `Tm > 0` and `Tref > 0`: the free energy vanishes at the
melting temperature. -/
theorem gibbs_at_melting_temperature (H Cp R Tref Tm : ℝ)
    (hTm : 0 < Tm) (hTref : 0 < Tref) :
    _gibbs (H, Se0_from_Tm Tm H Tref Cp, Cp, Tref) Tm R realBackend = 1 := by
  have hTm0 : Tm ≠ 0 := ne_of_gt hTm
  have key : H + Cp * (Tm - Tref) -
      Tm * (Se0_from_Tm Tm H Tref Cp + Cp * Real.log (Tm / Tref)) = 0 := by
    rw [Se0_from_Tm]
    field_simp
    ring
  show Real.exp (-(H + Cp * (Tm - Tref) -
      Tm * (Se0_from_Tm Tm H Tref Cp + Cp * Real.log (Tm / Tref))) / (R * Tm)) = 1
  rw [key]
  norm_num [Real.exp_zero]

/-- C10 witness: the theorem applied at
`H = 2, Cp = 3, R = 5, Tref = 1, Tm = 4`. -/
theorem gibbs_at_melting_temperature_witness :
    (0 : ℝ) < 4 ∧ (0 : ℝ) < 1 ∧
      _gibbs ((2 : ℝ), Se0_from_Tm 4 2 1 3, 3, 1) 4 5 realBackend = 1 :=
  ⟨by norm_num, by norm_num,
    gibbs_at_melting_temperature 2 3 5 1 4 (by norm_num) (by norm_num)⟩

/-- The notebook's network is mass-balanced: every reaction conserves
every component (checked exhaustively), as chempy enforces at
construction. -/
theorem rnet4_balanced : rnet4.balanced := by
  intro r c
  fin_cases r <;> fin_cases c <;>
    norm_num [rnet4, RNet.netChange, compMat4, reacCoeff4, prodCoeff4,
      Matrix.dotProduct, Fin.sum_univ_five]

/-- The two rows of the 4-state composition matrix are linearly
independent. -/
theorem compMat4_rows_independent : LinearIndependent ℚ compMat4 := by
  rw [linearIndependent_fin2]
  constructor
  · intro h
    have h3 := congrFun h 3
    simp [compMat4] at h3
  · intro q h
    have h0 := congrFun h 0
    simp [compMat4] at h0

/-- The 4-state composition matrix has rank 2. -/
theorem compMat4_rank : compMat4.rank = 2 :=
  compMat4_rows_independent.rank_matrix

/-- C5 counterexample: the first invariant vector produced by the
composition-balance query for the 4-state network (the "protein" row
`(1,1,1,0,1)`) does NOT annihilate the composition matrix `A`: dotted
against the rows of `A` (the only dimension-correct reading of
`v · A = 0` for a species-indexed `v`) it gives `(4, 1) ≠ 0`.  The
produced vectors are rows of `A`, not elements of its left null-space
(which is trivial since `A` has full row rank). -/
theorem balance_vector_not_in_left_nullspace :
    compMat4.mulVec (composition_balance_vectors rnet4 0) ≠ 0 := by
  intro h
  have h0 := congrFun h 0
  simp [compMat4, composition_balance_vectors, rnet4, Matrix.mulVec,
    Matrix.dotProduct, Fin.sum_univ_five] at h0
  norm_num at h0

/-- C5 (amended): every invariant vector produced by the
composition-balance query for the 4-state network annihilates every
reaction's net stoichiometric change vector (`v ⬝ netChange = 0`), and
the number of independent produced vectors equals the rank of the
composition matrix (namely 2). -/
theorem balance_vectors_annihilate_4state :
    (∀ c r, Matrix.dotProduct (composition_balance_vectors rnet4 c) (rnet4.netChange r) = 0) ∧
      Module.finrank ℚ
        (Submodule.span ℚ (Set.range (composition_balance_vectors rnet4))) =
        compMat4.rank := by
  constructor
  · exact fun c r => rnet4_balanced r c
  · exact (Matrix.rank_eq_finrank_span_row compMat4).symm

/-- C6: for every (mass-balanced, as enforced at construction) network,
every returned invariant vector annihilates every reaction's
stoichiometric change vector, and the number of independent invariant
vectors returned equals the rank of the composition matrix. -/
theorem invariants_annihilate_and_count {nc ns nr : ℕ} (net : RNet nc ns nr)
    (hbal : net.balanced) :
    (∀ c r, Matrix.dotProduct (composition_balance_vectors net c) (net.netChange r) = 0) ∧
      Module.finrank ℚ
        (Submodule.span ℚ (Set.range (composition_balance_vectors net))) =
        net.comp.rank := by
  refine ⟨fun c r => hbal r c, ?_⟩
  exact (Matrix.rank_eq_finrank_span_row net.comp).symm

/-- C6 witness: the theorem applied to the concrete 4-state network,
whose balance is checked by evaluation. -/
theorem invariants_annihilate_and_count_witness :
    rnet4.balanced ∧
      ((∀ c r, Matrix.dotProduct (composition_balance_vectors rnet4 c) (rnet4.netChange r) = 0) ∧
        Module.finrank ℚ
          (Submodule.span ℚ (Set.range (composition_balance_vectors rnet4))) =
          rnet4.comp.rank) :=
  ⟨rnet4_balanced, invariants_annihilate_and_count rnet4 rnet4_balanced⟩

/-- A derivative value can be rewritten along an equality. -/
theorem hasDerivAt_value_eq {f : ℝ → ℝ} {v w x : ℝ}
    (hf : HasDerivAt f v x) (hvw : v = w) : HasDerivAt f w x := hvw ▸ hf

/-- Derivative of a quadratic polynomial (covering affine and constant
functions with vanishing leading coefficients). -/
theorem hasDerivAt_poly2 (c2 c1 c0 x : ℝ) :
    HasDerivAt (fun s => c2 * s ^ 2 + c1 * s + c0) (2 * c2 * x + c1) x := by
  have h := (((hasDerivAt_pow 2 x).const_mul c2).add
    ((hasDerivAt_id x).const_mul c1)).add_const c0
  refine hasDerivAt_value_eq h ?_
  norm_num
  ring

/-- Explicit component form of the reduced `{L, N}` right-hand side. -/
theorem rhsLN_comp (k : Fin 5 → ℝ) (P0 L0 : ℝ) (x : Fin 3 → ℝ) :
    rhsLN k P0 L0 x =
      ![k 2 * (P0 - x 0 - x 1 - x 2) - k 3 * x 0 - k 4 * x 0,
        k 4 * x 0,
        k 1 * (P0 - x 0 - x 1 - x 2) * (L0 - x 2) - k 0 * x 2] := by
  funext i
  fin_cases i <;>
    simp [rhsLN, projLN, fullRhs, recLN, Matrix.cons_val_zero, Matrix.cons_val_one,
      Matrix.head_cons, Matrix.cons_val_two, Matrix.cons_val_three,
      Matrix.cons_val_four, Matrix.vecHead, Matrix.vecTail]

/-- Explicit component form of the reduced `{L, A}` right-hand side. -/
theorem rhsLA_comp (k : Fin 5 → ℝ) (P0 L0 : ℝ) (x : Fin 3 → ℝ) :
    rhsLA k P0 L0 x =
      ![k 0 * x 2 - k 1 * x 0 * (L0 - x 2) - k 2 * x 0 + k 3 * x 1,
        k 2 * x 0 - k 3 * x 1 - k 4 * x 1,
        k 1 * x 0 * (L0 - x 2) - k 0 * x 2] := by
  funext i
  fin_cases i <;>
    simp [rhsLA, projLA, fullRhs, recLA, Matrix.cons_val_zero, Matrix.cons_val_one,
      Matrix.head_cons, Matrix.cons_val_two, Matrix.cons_val_three,
      Matrix.cons_val_four, Matrix.vecHead, Matrix.vecTail]

/-- The derivative of a function that is (pointwise) a quadratic
polynomial, with constant term read off at `0`. -/
theorem hasDerivAt_of_poly2 {f : ℝ → ℝ} (c2 c1 : ℝ) {v : ℝ} (x : ℝ)
    (hf : ∀ s, f s = c2 * s ^ 2 + c1 * s + f 0) (hv : v = 2 * c2 * x + c1) :
    HasDerivAt f v x := by
  have hfe : f = fun s => c2 * s ^ 2 + c1 * s + f 0 := funext hf
  rw [hv, hfe]
  exact hasDerivAt_poly2 c2 c1 (f 0) x

/-- The matrix `jacLN` is the Jacobian of the reduced `{L, N}` right-hand side:
every entry is the corresponding partial derivative, at every point and
for all parameters. -/
theorem jacLN_is_jacobian (k : Fin 5 → ℝ) (P0 L0 u a nl : ℝ) :
    isJacobianAt (rhsLN k P0 L0) (jacLN k P0 L0) u a nl := by
  unfold isJacobianAt
  refine ⟨⟨?_, ?_, ?_⟩, ⟨?_, ?_, ?_⟩, ⟨?_, ?_, ?_⟩⟩ <;>
    simp only [rhsLN_comp, jacLN, Matrix.cons_val_zero, Matrix.cons_val_one,
      Matrix.head_cons, Matrix.cons_val_two, Matrix.vecHead, Matrix.vecTail,
      Matrix.of_apply, Function.comp_apply, Fin.succ_zero_eq_one,
      Fin.succ_one_eq_two, Matrix.cons_val_succ]
  · exact hasDerivAt_of_poly2 0 (-(k 2) - k 3 - k 4) u (by intro s; ring) (by ring)
  · exact hasDerivAt_of_poly2 0 (-(k 2)) a (by intro s; ring) (by ring)
  · exact hasDerivAt_of_poly2 0 (-(k 2)) nl (by intro s; ring) (by ring)
  · exact hasDerivAt_of_poly2 0 (k 4) u (by intro s; ring) (by ring)
  · exact hasDerivAt_of_poly2 0 0 a (by intro s; ring) (by ring)
  · exact hasDerivAt_of_poly2 0 0 nl (by intro s; ring) (by ring)
  · exact hasDerivAt_of_poly2 0 (-(k 1) * (L0 - nl)) u (by intro s; ring) (by ring)
  · exact hasDerivAt_of_poly2 0 (-(k 1) * (L0 - nl)) a (by intro s; ring) (by ring)
  · exact hasDerivAt_of_poly2 (k 1) (-(k 1) * ((P0 - u - a) + L0) - k 0) nl
      (by intro s; ring) (by ring)

/-- The matrix `jacLA` is the Jacobian of the reduced `{L, A}` right-hand side. -/
theorem jacLA_is_jacobian (k : Fin 5 → ℝ) (P0 L0 u a nl : ℝ) :
    isJacobianAt (rhsLA k P0 L0) (jacLA k P0 L0) u a nl := by
  unfold isJacobianAt
  refine ⟨⟨?_, ?_, ?_⟩, ⟨?_, ?_, ?_⟩, ⟨?_, ?_, ?_⟩⟩ <;>
    simp only [rhsLA_comp, jacLA, Matrix.cons_val_zero, Matrix.cons_val_one,
      Matrix.head_cons, Matrix.cons_val_two, Matrix.vecHead, Matrix.vecTail,
      Matrix.of_apply, Function.comp_apply, Fin.succ_zero_eq_one,
      Fin.succ_one_eq_two, Matrix.cons_val_succ]
  · exact hasDerivAt_of_poly2 0 (-(k 1) * (L0 - nl) - k 2) u (by intro s; ring) (by ring)
  · exact hasDerivAt_of_poly2 0 (k 3) a (by intro s; ring) (by ring)
  · exact hasDerivAt_of_poly2 0 (k 0 + k 1 * u) nl (by intro s; ring) (by ring)
  · exact hasDerivAt_of_poly2 0 (k 2) u (by intro s; ring) (by ring)
  · exact hasDerivAt_of_poly2 0 (-(k 3) - k 4) a (by intro s; ring) (by ring)
  · exact hasDerivAt_of_poly2 0 0 nl (by intro s; ring) (by ring)
  · exact hasDerivAt_of_poly2 0 (k 1 * (L0 - nl)) u (by intro s; ring) (by ring)
  · exact hasDerivAt_of_poly2 0 0 a (by intro s; ring) (by ring)
  · exact hasDerivAt_of_poly2 0 (-(k 1) * u - k 0) nl (by intro s; ring) (by ring)

/-- The `{L, N}` reduced Jacobian is non-singular (shown at the unit
parameter/state instance, so its symbolic determinant is not identically
zero). -/
theorem jacLN_det_unit : (jacLN (fun _ => 1) 1 1 ![0, 0, 0]).det ≠ 0 := by
  rw [Matrix.det_fin_three]
  norm_num [jacLN, Matrix.cons_val_zero, Matrix.cons_val_one, Matrix.head_cons,
    Matrix.cons_val_two, Matrix.vecHead, Matrix.vecTail, Matrix.of_apply,
    Function.comp_apply, Fin.succ_zero_eq_one, Fin.succ_one_eq_two,
    Matrix.cons_val_succ]

/-- The `{L, A}` reduced Jacobian is non-singular at the unit instance. -/
theorem jacLA_det_unit : (jacLA (fun _ => 1) 1 1 ![0, 0, 0]).det ≠ 0 := by
  rw [Matrix.det_fin_three]
  norm_num [jacLA, Matrix.cons_val_zero, Matrix.cons_val_one, Matrix.head_cons,
    Matrix.cons_val_two, Matrix.vecHead, Matrix.vecTail, Matrix.of_apply,
    Function.comp_apply, Fin.succ_zero_eq_one, Fin.succ_one_eq_two,
    Matrix.cons_val_succ]

/-- C7: for the concrete 4-state network, the composition matrix has
exactly 2 independent invariants; eliminating `{L, N}` leaves exactly the
free variables `{U, A, NL}` and eliminating `{L, A}` leaves exactly
`{U, N, NL}` (a 3-variable system each); both eliminations have an
invertible eliminated-columns sub-matrix; `jacLN`/`jacLA` are the exact
Jacobians of the two reduced right-hand sides; and both reduced
Jacobians are non-singular (non-vanishing determinant exhibited at the
unit parameter/state instance). -/
theorem reduced4_structure_and_jacobians :
    compMat4.rank = 2 ∧
    freeSpecies {"L", "N"} = {"U", "A", "NL"} ∧
    freeSpecies {"L", "A"} = {"U", "N", "NL"} ∧
    elimSubLN.det ≠ 0 ∧
    elimSubLA.det ≠ 0 ∧
    (∀ (k : Fin 5 → ℝ) (P0 L0 u a nl : ℝ),
      isJacobianAt (rhsLN k P0 L0) (jacLN k P0 L0) u a nl ∧
      isJacobianAt (rhsLA k P0 L0) (jacLA k P0 L0) u a nl) ∧
    (jacLN (fun _ => 1) 1 1 ![0, 0, 0]).det ≠ 0 ∧
    (jacLA (fun _ => 1) 1 1 ![0, 0, 0]).det ≠ 0 := by
  refine ⟨compMat4_rank, by decide, by decide, ?_, ?_,
    fun k P0 L0 u a nl => ⟨jacLN_is_jacobian k P0 L0 u a nl,
      jacLA_is_jacobian k P0 L0 u a nl⟩,
    jacLN_det_unit, jacLA_det_unit⟩
  · rw [Matrix.det_fin_two]
    norm_num [elimSubLN, compMat4, Matrix.cons_val_zero, Matrix.cons_val_one,
      Matrix.head_cons, Matrix.cons_val_two, Matrix.cons_val_three,
      Matrix.vecHead, Matrix.vecTail, Matrix.of_apply, Function.comp_apply,
      Matrix.cons_val_succ]
  · rw [Matrix.det_fin_two]
    norm_num [elimSubLA, compMat4, Matrix.cons_val_zero, Matrix.cons_val_one,
      Matrix.head_cons, Matrix.cons_val_two, Matrix.cons_val_three,
      Matrix.vecHead, Matrix.vecTail, Matrix.of_apply, Function.comp_apply,
      Matrix.cons_val_succ]

/-- The full right-hand side is everywhere tangent to the conservation
laws: the protein components (`N, U, A, NL`) sum to zero derivative and
the ligand components (`L, NL`) likewise (three forms, as needed for the
two eliminations). -/
theorem fullRhs_conserve (k : Fin 5 → ℝ) (z : Fin 5 → ℝ) :
    fullRhs k z 0 = -(fullRhs k z 1) - fullRhs k z 2 - fullRhs k z 4 ∧
    fullRhs k z 3 = -(fullRhs k z 4) ∧
    fullRhs k z 2 = -(fullRhs k z 0) - fullRhs k z 1 - fullRhs k z 4 := by
  refine ⟨?_, ?_, ?_⟩ <;>
    simp [fullRhs, Matrix.cons_val_zero, Matrix.cons_val_one, Matrix.head_cons,
      Matrix.cons_val_two, Matrix.cons_val_three, Matrix.cons_val_four,
      Matrix.vecHead, Matrix.vecTail] <;> ring

/-- A solution of the reduced `{L, N}` system lifts, through the
invariant-recovery map, to a solution of the full system. -/
theorem recLN_lift (k : Fin 5 → ℝ) (P0 L0 : ℝ) (x : ℝ → Fin 3 → ℝ)
    (hx : ∀ t, HasDerivAt x (rhsLN k P0 L0 (x t)) t) (t : ℝ) :
    HasDerivAt (fun τ => recLN P0 L0 (x τ)) (fullRhs k (recLN P0 L0 (x t))) t := by
  have hc := hasDerivAt_pi.mp (hx t)
  rw [hasDerivAt_pi]
  intro i
  fin_cases i
  · refine hasDerivAt_value_eq
      ((((hasDerivAt_const t P0).sub (hc 0)).sub (hc 1)).sub (hc 2)) ?_
    show 0 - fullRhs k (recLN P0 L0 (x t)) 1 - fullRhs k (recLN P0 L0 (x t)) 2
        - fullRhs k (recLN P0 L0 (x t)) 4 = fullRhs k (recLN P0 L0 (x t)) 0
    rw [(fullRhs_conserve k (recLN P0 L0 (x t))).1]
    ring
  · exact hc 0
  · exact hc 1
  · refine hasDerivAt_value_eq ((hasDerivAt_const t L0).sub (hc 2)) ?_
    show 0 - fullRhs k (recLN P0 L0 (x t)) 4 = fullRhs k (recLN P0 L0 (x t)) 3
    rw [(fullRhs_conserve k (recLN P0 L0 (x t))).2.1]
    ring
  · exact hc 2

/-- A solution of the reduced `{L, A}` system lifts, through the
invariant-recovery map, to a solution of the full system. -/
theorem recLA_lift (k : Fin 5 → ℝ) (P0 L0 : ℝ) (x : ℝ → Fin 3 → ℝ)
    (hx : ∀ t, HasDerivAt x (rhsLA k P0 L0 (x t)) t) (t : ℝ) :
    HasDerivAt (fun τ => recLA P0 L0 (x τ)) (fullRhs k (recLA P0 L0 (x t))) t := by
  have hc := hasDerivAt_pi.mp (hx t)
  rw [hasDerivAt_pi]
  intro i
  fin_cases i
  · exact hc 0
  · exact hc 1
  · refine hasDerivAt_value_eq
      ((((hasDerivAt_const t P0).sub (hc 0)).sub (hc 1)).sub (hc 2)) ?_
    show 0 - fullRhs k (recLA P0 L0 (x t)) 0 - fullRhs k (recLA P0 L0 (x t)) 1
        - fullRhs k (recLA P0 L0 (x t)) 4 = fullRhs k (recLA P0 L0 (x t)) 2
    rw [(fullRhs_conserve k (recLA P0 L0 (x t))).2.2]
    ring
  · refine hasDerivAt_value_eq ((hasDerivAt_const t L0).sub (hc 2)) ?_
    show 0 - fullRhs k (recLA P0 L0 (x t)) 4 = fullRhs k (recLA P0 L0 (x t)) 3
    rw [(fullRhs_conserve k (recLA P0 L0 (x t))).2.1]
    ring
  · exact hc 2

/-- C8: reduction equivalence.  For identical parameters and identical
reconstructed initial conditions, a trajectory of the `{L, N}`-reduced
system and a trajectory of the `{L, A}`-reduced system reconstruct the
very same full trajectory on any interval on which both reconstructions
stay in a region where the full right-hand side is Lipschitz (exact
solutions and exact equality; the spec's "within integration tolerance"
concerns only the external numeric integrator). -/
theorem reduced_trajectories_agree
    (k : Fin 5 → ℝ) (P0 L0 : ℝ) (K : NNReal) (s : Set (Fin 5 → ℝ)) (a b : ℝ)
    (hLip : LipschitzOnWith K (fullRhs k) s)
    (xLN xLA : ℝ → Fin 3 → ℝ)
    (hLN : ∀ t, HasDerivAt xLN (rhsLN k P0 L0 (xLN t)) t)
    (hLA : ∀ t, HasDerivAt xLA (rhsLA k P0 L0 (xLA t)) t)
    (hsLN : ∀ t ∈ Set.Ico a b, recLN P0 L0 (xLN t) ∈ s)
    (hsLA : ∀ t ∈ Set.Ico a b, recLA P0 L0 (xLA t) ∈ s)
    (hinit : recLN P0 L0 (xLN a) = recLA P0 L0 (xLA a)) :
    ∀ t ∈ Set.Icc a b, recLN P0 L0 (xLN t) = recLA P0 L0 (xLA t) := by
  have hf := recLN_lift k P0 L0 xLN hLN
  have hg := recLA_lift k P0 L0 xLA hLA
  intro t ht
  exact ODE_solution_unique_of_mem_Icc_right
    (v := fun _ z => fullRhs k z) (s := fun _ => s) (K := K)
    (f := fun τ => recLN P0 L0 (xLN τ)) (g := fun τ => recLA P0 L0 (xLA τ))
    (fun _ => hLip)
    (fun τ _ => (hf τ).continuousAt.continuousWithinAt)
    (fun τ _ => (hf τ).hasDerivWithinAt)
    hsLN
    (fun τ _ => (hg τ).continuousAt.continuousWithinAt)
    (fun τ _ => (hg τ).hasDerivWithinAt)
    hsLA
    hinit ht

/-- C8 witness: the equivalence theorem applied to the constant-zero
trajectories of both reduced systems (an exact equilibrium: all rates
vanish at the origin), with unit rate constants, zero invariant totals,
the singleton region `{0}` and the interval `[0, 1]`, evaluated at
`t = 1`. -/
theorem reduced_trajectories_agree_witness :
    recLN 0 0 (fun _ => 0) = recLA 0 0 (fun _ => 0) := by
  have hr : recLN 0 0 (fun _ => (0 : ℝ)) = 0 := by
    funext i
    fin_cases i <;> simp [recLN]
  have hra : recLA 0 0 (fun _ => (0 : ℝ)) = 0 := by
    funext i
    fin_cases i <;> simp [recLA]
  have hzLN : rhsLN (fun _ => 1) 0 0 (fun _ => (0 : ℝ)) = 0 := by
    rw [rhsLN_comp]
    funext i
    fin_cases i <;> norm_num
  have hzLA : rhsLA (fun _ => 1) 0 0 (fun _ => (0 : ℝ)) = 0 := by
    rw [rhsLA_comp]
    funext i
    fin_cases i <;> norm_num
  exact reduced_trajectories_agree (fun _ => 1) 0 0 1 {0} 0 1
    (fun x hx y hy => by
      rw [Set.mem_singleton_iff] at hx hy
      subst hx
      subst hy
      simp)
    (fun _ => 0) (fun _ => 0)
    (fun t => by
      show HasDerivAt (fun _ => (fun _ => (0 : ℝ))) (rhsLN (fun _ => 1) 0 0 (fun _ => 0)) t
      rw [hzLN]
      exact hasDerivAt_const t 0)
    (fun t => by
      show HasDerivAt (fun _ => (fun _ => (0 : ℝ))) (rhsLA (fun _ => 1) 0 0 (fun _ => 0)) t
      rw [hzLA]
      exact hasDerivAt_const t 0)
    (fun t _ => by rw [Set.mem_singleton_iff]; exact hr)
    (fun t _ => by rw [Set.mem_singleton_iff]; exact hra)
    (hr.trans hra.symm)
    1 (by norm_num)

/-- C9: the derivation of the eliminated species' closed-form
expressions is idempotent — the derivation is a pure function, so a
second call on the same inputs returns the same expression set — and
that set is non-empty (it contains the expressions for `L` and `N`). -/
theorem analytic_L_N_idempotent (c0 : Fin 5 → ℝ) (x : Fin 3 → ℝ) :
    analytic_L_N c0 x = analytic_L_N c0 x ∧ analytic_L_N c0 x ≠ [] :=
  ⟨rfl, by simp [analytic_L_N]⟩
